import Mathlib

/-!
Verification of the ZDownloadManager segmented downloader core
(`zdownloadmanager/core/downloader.py`) against its natural-language
specification.  The Python code is shallowly embedded: byte strings are
`List Nat`, the SQLite manifest is an association list plus a piece list,
HTTP traffic is modelled by explicit request events and by oracles
(functions supplied as arguments) describing the server's responses, and
`hashlib.sha256(..).hexdigest()` is an abstract parameter
`hash : List Nat → String` (the code only ever compares digests for
equality, so any deterministic function is a faithful stand-in).
-/

namespace ZDM

/-- Embeds the `Piece` dataclass: a contiguous byte interval
`[start, end]` (inclusive), with `end` renamed `end_` because `end` is a
Lean keyword.  `sha256 = none` models Python `None`. -/
structure Piece where
  idx : Nat
  start : Nat
  end_ : Nat
  sha256 : Option String := none
  status : String := "pending"
  last_url : Option String := none
deriving Repr, DecidableEq

/-- Embeds `SegmentedDownloader._enumerate_pieces`: `count = (file_size +
piece_size - 1) // piece_size` pieces, piece `idx` covering
`[idx*piece_size, min(idx*piece_size + piece_size, file_size) - 1]`. -/
def enumerate_pieces (file_size piece_size : Nat) : List Piece :=
  (List.range ((file_size + piece_size - 1) / piece_size)).map fun idx =>
    { idx := idx
      start := idx * piece_size
      end_ := min (idx * piece_size + piece_size) file_size - 1 }

/-- Python truthiness of the `sha256` field: non-`None` and non-empty. -/
def sha256Set (p : Piece) : Bool :=
  match p.sha256 with
  | some s => s ≠ ""
  | none => false

/-- Reading `len` bytes from an open file positioned at `start`
(`f.seek(start); f.read(len)`): bytes past end-of-file are simply not
returned. -/
def readBytes (dest : List Nat) (start len : Nat) : List Nat :=
  (dest.drop start).take len

section Planner

/-- Arithmetic core of the planner: the lengths of the first `n` planned
intervals telescope to `min (n * ps) fs`. -/
lemma sum_min_lengths (ps fs : Nat) :
    ∀ n : Nat,
      (((List.range n).map fun i => min (i * ps + ps) fs - i * ps)).sum
        = min (n * ps) fs
  | 0 => by simp
  | n + 1 => by
    rw [List.range_succ, List.map_append, List.sum_append,
      sum_min_lengths ps fs n]
    simp only [List.map_cons, List.map_nil, List.sum_cons, List.sum_nil]
    have h1 := Nat.min_le_left (n * ps) fs
    have h2 := Nat.min_le_right (n * ps) fs
    rcases Nat.le_total (n * ps) fs with h | h
    · rcases Nat.le_total (n * ps + ps) fs with h' | h'
      · simp [Nat.min_eq_left, h, h', Nat.succ_mul, Nat.min_eq_left (le_trans (Nat.le_add_right _ _) h')]
      · simp only [Nat.min_eq_left h, Nat.min_eq_right h', Nat.succ_mul,
          Nat.min_eq_right (show fs ≤ n * ps + ps from h')]
        omega
    · have : min (n * ps) fs = fs := Nat.min_eq_right h
      have h' : fs ≤ (n + 1) * ps := le_trans h (by nlinarith)
      simp [this, Nat.min_eq_right h', Nat.min_eq_right (le_trans h (Nat.le_add_right _ ps))]
      omega

/-- If `i` is below the planned piece count, the `i`-th piece starts
strictly inside the file. -/
lemma start_lt_of_lt_count {fs ps i : Nat} (hps : 0 < ps)
    (hi : i < (fs + ps - 1) / ps) : i * ps < fs := by
  have h1 : i + 1 ≤ (fs + ps - 1) / ps := hi
  have h2 : (i + 1) * ps ≤ fs + ps - 1 := by
    have := (Nat.le_div_iff_mul_le hps).mp h1
    exact this
  have h3 : i * ps + ps ≤ fs + ps - 1 := by
    calc i * ps + ps = (i + 1) * ps := by ring
    _ ≤ fs + ps - 1 := h2
  omega

/-- The planned piece count is enough to cover the file. -/
lemma count_mul_ge {fs ps : Nat} (hps : 0 < ps) :
    fs ≤ (fs + ps - 1) / ps * ps := by
  have hm := Nat.div_add_mod (fs + ps - 1) ps
  rw [Nat.mul_comm] at hm
  have hr : (fs + ps - 1) % ps < ps := Nat.mod_lt _ hps
  omega

/-- The piece at index `i` of the planner's output. -/
lemma enumerate_pieces_get (file_size piece_size i : Nat)
    (h : i < (enumerate_pieces file_size piece_size).length) :
    (enumerate_pieces file_size piece_size)[i] =
      { idx := i
        start := i * piece_size
        end_ := min (i * piece_size + piece_size) file_size - 1 } := by
  simp [enumerate_pieces] at h ⊢

/-- Length of the planner's output. -/
lemma enumerate_pieces_length (file_size piece_size : Nat) :
    (enumerate_pieces file_size piece_size).length
      = (file_size + piece_size - 1) / piece_size := by
  simp [enumerate_pieces]

end Planner

/-- The characters Python `str.strip()` removes: space, tab, newline,
carriage return, vertical tab, form feed (ASCII whitespace). -/
def pyIsSpace (c : Char) : Bool :=
  c = ' ' ∨ c = '\t' ∨ c = '\n' ∨ c = '\r'
    ∨ c = Char.ofNat 11 ∨ c = Char.ofNat 12

/-- Embeds Python `str.strip()`: drop leading and trailing whitespace. -/
def pyStrip (s : String) : String :=
  String.mk (((s.data.dropWhile pyIsSpace).reverse.dropWhile pyIsSpace).reverse)

/-- Embeds the list comprehension in `SegmentedDownloader.__init__`:
`[url.strip() for url in urls if url.strip()]`. -/
def initUrls (urls : List String) : List String :=
  (urls.map pyStrip).filter fun s => s ≠ ""

/-- The configuration kept by a constructed `SegmentedDownloader`
(the fields the verified claims depend on; `piece_size` and
`concurrency` are plain Python ints, hence `Int`). -/
structure Downloader where
  urls : List String
  piece_size : Int
  concurrency : Int
deriving Repr, DecidableEq

/-- Embeds `SegmentedDownloader.__init__`'s validation: strip and filter
the URLs, and raise `ValueError` only when no non-empty URL remains.
`piece_size` and `concurrency` are stored unvalidated, exactly as in the
source. -/
def mkDownloader (urls : List String) (piece_size concurrency : Int) :
    Except String Downloader :=
  let us := initUrls urls
  if us = [] then Except.error "At least one URL must be provided"
  else Except.ok { urls := us, piece_size := piece_size, concurrency := concurrency }

/-- Whether an `Except` is the error case (a raised Python exception). -/
def isErr {ε α : Type} : Except ε α → Bool
  | Except.error _ => true
  | Except.ok _ => false

/-- Embeds one iteration of the resume verifier loop in
`SegmentedDownloader.download` (lines 202–210): returns the possibly
updated piece and whether `_save_piece` was called for it. -/
def verifyPiece (hash : List Nat → String) (dest : List Nat) (p : Piece) :
    Piece × Bool :=
  if p.status = "done" ∧ sha256Set p then
    if p.sha256 = some (hash (readBytes dest p.start (p.end_ - p.start + 1)))
    then (p, false)
    else ({ p with status := "pending", sha256 := none }, true)
  else (p, false)

/-- Embeds the whole resume-verification pass: the updated piece list
and the list of pieces persisted (saved) during the pass, in order. -/
def verifyAll (hash : List Nat → String) (dest : List Nat) :
    List Piece → List Piece × List Piece
  | [] => ([], [])
  | p :: rest =>
    ((verifyPiece hash dest p).1 :: (verifyAll hash dest rest).1,
      (if (verifyPiece hash dest p).2 then [(verifyPiece hash dest p).1]
       else []) ++ (verifyAll hash dest rest).2)

/-- The parts of an HTTP response `_probe_server` inspects: the status
code and the two headers it reads. -/
structure Resp where
  status : Nat
  contentLength : Option String
  acceptRanges : Option String
deriving Repr, DecidableEq

/-- The network behaviour seen by one `_probe_server` call: the outcome
of the initial HEAD (`none` = exception), of the header-reading GET used
when the HEAD status is ≥ 400, and the status of the `bytes=0-0` probe
GET (`none` = exception). -/
structure ProbeEnv where
  headResult : Option Resp
  getFallbackResult : Option Resp
  rangeProbeStatus : Option Nat
deriving Repr, DecidableEq

/-- The response `_probe_server` ends up inspecting, after the
HEAD-with-GET-fallback dance (`none` = a network exception occurred). -/
def probeResp (env : ProbeEnv) : Option Resp :=
  match env.headResult with
  | none => none
  | some r0 => if r0.status ≥ 400 then env.getFallbackResult else some r0

/-- Embeds Python `str.lower()` (character-wise lowercasing). -/
def pyLower (s : String) : String :=
  String.mk (s.data.map Char.toLower)

/-- Python truthiness of `accept_ranges` followed by
`accept_ranges.lower() == "bytes"`. -/
def acceptRangesBytes (r : Resp) : Bool :=
  match r.acceptRanges with
  | some a => a ≠ "" ∧ pyLower a = "bytes"
  | none => false

/-- Value of a decimal digit character, as Python `int()` reads it. -/
def digitVal (c : Char) : Nat := c.toNat - 48

/-- Python `int(s)` on a string of digits. -/
def strToNat (s : String) : Nat :=
  s.data.foldl (fun a c => a * 10 + digitVal c) 0

/-- Python `length and length.isdigit()`: non-empty and all digits. -/
def isDigits (s : String) : Bool := s ≠ "" ∧ s.data.all Char.isDigit

/-- Embeds `SegmentedDownloader._probe_server`: returns
`(file_size, range_supported)`. -/
def probeServer (env : ProbeEnv) : Nat × Bool :=
  match probeResp env with
  | none => (0, false)
  | some resp =>
    let file_size :=
      match resp.contentLength with
      | some l => if isDigits l then strToNat l else 0
      | none => 0
    let range_supported :=
      if acceptRangesBytes resp then true
      else
        match env.rangeProbeStatus with
        | some s => s = 206
        | none => false
    (file_size, range_supported)

/-- The outbound HTTP requests the downloader can make. -/
inductive NetEvent where
  | headReq (url : String)
  | getHeadersReq (url : String)
  | rangeProbeReq (url : String)
  | pieceReq (url : String) (a b : Nat)
  | seqReq (url : String) (offset : Option Nat)
deriving Repr, DecidableEq

/-- Requests of the probe phase (HEAD, header GET, `bytes=0-0` GET). -/
def NetEvent.isProbe : NetEvent → Bool
  | headReq _ => true
  | getHeadersReq _ => true
  | rangeProbeReq _ => true
  | _ => false

/-- The requests one `_probe_server` call issues, in order. -/
def probeEvents (env : ProbeEnv) (url : String) : List NetEvent :=
  [NetEvent.headReq url]
    ++ (match env.headResult with
        | none => []
        | some r0 => if r0.status ≥ 400 then [NetEvent.getHeadersReq url] else [])
    ++ (match probeResp env with
        | none => []
        | some resp =>
          if acceptRangesBytes resp then [] else [NetEvent.rangeProbeReq url])

/-- What one ranged GET for a piece can produce at one mirror: a network
exception, or a response with a status code and body bytes. -/
inductive FetchOutcome where
  | exc
  | resp (status : Nat) (body : List Nat)
deriving Repr, DecidableEq

/-- Embeds the worker's `for url in self.urls / except: continue` loop:
the first mirror whose request does not raise and whose status is 206 or
200 wins, with its body; `none` when every mirror is exhausted.  The
body's byte count is never examined. -/
def firstAccepted (fetch : String → FetchOutcome) :
    List String → Option (String × List Nat)
  | [] => none
  | url :: rest =>
    match fetch url with
    | FetchOutcome.exc => firstAccepted fetch rest
    | FetchOutcome.resp s body =>
      if s = 206 ∨ s = 200 then some (url, body)
      else firstAccepted fetch rest

/-- Positional write (`f.seek(start); f.write(data)`); a seek past EOF
zero-fills the gap, as POSIX does. -/
def writeAt (dest : List Nat) (start : Nat) (data : List Nat) : List Nat :=
  dest.take start ++ List.replicate (start - dest.length) 0 ++ data
    ++ dest.drop (start + data.length)

/-- The piece record the worker persists on success (lines 240–243). -/
def workerComplete (hash : List Nat → String) (p : Piece) (url : String)
    (data : List Nat) : Piece :=
  { p with sha256 := some (hash data), status := "done", last_url := some url }

/-- Embeds the whole worker body for one piece: mirror failover, then
positional write plus manifest update, or the `DownloadError` raised by
the `for`-`else` clause. -/
def workerRun (hash : List Nat → String) (fetch : String → FetchOutcome)
    (urls : List String) (dest : List Nat) (p : Piece) :
    Except String (List Nat × Piece) :=
  match firstAccepted fetch urls with
  | some ub =>
    Except.ok (writeAt dest p.start ub.2, workerComplete hash p ub.1 ub.2)
  | none => Except.error ("Failed to download piece " ++ toString p.idx)

/-- A response in sequential-fallback mode: status plus streamed body. -/
structure SeqResp where
  status : Nat
  body : List Nat
deriving Repr, DecidableEq

/-- Embeds `SegmentedDownloader._sequential_download`.  `dest0 = none`
models an absent destination file.  `fetch` maps the optional
`Range: bytes={offset}-` header to the server's response.  Returns the
final destination bytes, the persisted piece list, and the request that
was sent. -/
def sequentialDownload (hash : List Nat → String) (url : String)
    (fetch : Option Nat → SeqResp) (file_size : Nat)
    (dest0 : Option (List Nat)) (pieces : List Piece) :
    Except String (List Nat × List Piece × NetEvent) :=
  let ed : Nat × List Nat :=
    match dest0 with
    | none => (0, [])
    | some d => if d.length > file_size then (0, []) else (d.length, d)
  let existing_size := ed.1
  let d := ed.2
  let rangeHdr : Option Nat :=
    if existing_size > 0 then some existing_size else none
  let resp := fetch rangeHdr
  if resp.status = 200 ∨ resp.status = 206 then
    let newDest := d ++ resp.body
    let pieces' := pieces.map fun p =>
      { p with
          sha256 := some (hash (readBytes newDest p.start (p.end_ - p.start + 1)))
          status := "done"
          last_url := some url }
    Except.ok (newDest, pieces', NetEvent.seqReq url rangeHdr)
  else Except.error ("Sequential download failed: " ++ toString resp.status)

/-- Association-list lookup embedding `_get_meta`. -/
def metaGet (m : List (String × String)) (k : String) : Option String :=
  (m.find? fun kv => kv.1 = k).map fun kv => kv.2

/-- Embeds `_set_meta`: an `INSERT OR REPLACE` on the `meta` table. -/
def metaSet (m : List (String × String)) (k v : String) :
    List (String × String) :=
  match m with
  | [] => [(k, v)]
  | kv :: rest => if kv.1 = k then (k, v) :: rest else kv :: metaSet rest k v

/-- Python truthiness of `self._get_meta(key)`. -/
def truthy : Option String → Bool
  | none => false
  | some s => s ≠ ""

/-- The downloader-visible state: manifest metadata, manifest piece
table, and destination file (`none` = absent). -/
structure DLState where
  meta : List (String × String)
  pieces : List Piece
  dest : Option (List Nat)
deriving Repr, DecidableEq

/-- How one `download()` call ends relative to its deterministic prefix:
a raised `DownloadError`, the early return on an empty pending set, or
the hand-off to the worker pool / sequential fallback. -/
inductive Outcome where
  | fatal (msg : String)
  | finished
  | dispatchRange (pending : List Piece)
  | dispatchSeq
deriving Repr, DecidableEq

/-- Embeds `SegmentedDownloader.download` up to (and including) the
`if not pending` / `if not range_supported` branch: probe, the
`file_size == 0` guard, metadata persistence, destination preparation,
piece-table initialisation or reload, the resume verifier, and the
pending computation.  Returns the outcome, the state after this prefix,
and the network requests issued so far. -/
def downloadStep (hash : List Nat → String) (penv : ProbeEnv)
    (urls : List String) (piece_size : Nat) (st : DLState) :
    Outcome × DLState × List NetEvent :=
  let url0 := urls.headD ""
  let pr := probeServer penv
  let file_size := pr.1
  let range_supported := pr.2
  let evs := probeEvents penv url0
  if file_size = 0 then
    (Outcome.fatal "Unable to determine remote file size", st, evs)
  else
    let meta1 :=
      metaSet (metaSet st.meta "file_size" (toString file_size))
        "range_supported" (if range_supported then "1" else "0")
    let dest1 : List Nat :=
      if range_supported then
        match st.dest with
        | some d => if d.length ≠ file_size then List.replicate file_size 0 else d
        | none => List.replicate file_size 0
      else
        match st.dest with
        | some d => if d.length > file_size then [] else d
        | none => []
    let pm : List Piece × List (String × String) :=
      if truthy (metaGet meta1 "initialised") then (st.pieces, meta1)
      else (enumerate_pieces file_size piece_size, metaSet meta1 "initialised" "1")
    let vres := verifyAll hash dest1 pm.1
    let pieces2 := vres.1
    let pending := pieces2.filter fun p => p.status ≠ "done"
    let st' : DLState := { meta := pm.2, pieces := pieces2, dest := some dest1 }
    if pending.isEmpty then (Outcome.finished, st', evs)
    else if ¬ range_supported then (Outcome.dispatchSeq, st', evs)
    else (Outcome.dispatchRange pending, st', evs)

/-- C1: for positive `file_size` and `piece_size`,
`_enumerate_pieces` yields `⌈file_size/piece_size⌉` pieces (characterised
as the least `n` with `file_size ≤ n·piece_size`, equivalently
`file_size ≤ count·piece_size < file_size + piece_size`) ordered by
index, with `start = idx·piece_size` and
`end = min(start + piece_size, file_size) − 1`; the intervals are
pairwise non-overlapping, cover `[0, file_size)`, and their lengths sum
to `file_size`. -/
theorem C1_enumerate_pieces_tiling (file_size piece_size : Nat)
    (hfs : 0 < file_size) (hps : 0 < piece_size) :
    (enumerate_pieces file_size piece_size).length
        = (file_size + piece_size - 1) / piece_size
    ∧ file_size ≤ (enumerate_pieces file_size piece_size).length * piece_size
    ∧ ((enumerate_pieces file_size piece_size).length - 1) * piece_size
        < file_size
    ∧ (∀ i, ∀ h : i < (enumerate_pieces file_size piece_size).length,
        (enumerate_pieces file_size piece_size)[i].idx = i
        ∧ (enumerate_pieces file_size piece_size)[i].start = i * piece_size
        ∧ (enumerate_pieces file_size piece_size)[i].end_
            = min (i * piece_size + piece_size) file_size - 1)
    ∧ (∀ i j, ∀ hi : i < (enumerate_pieces file_size piece_size).length,
        ∀ hj : j < (enumerate_pieces file_size piece_size).length, i < j →
        (enumerate_pieces file_size piece_size)[i].end_
          < (enumerate_pieces file_size piece_size)[j].start)
    ∧ (∀ b, b < file_size → ∃ p ∈ enumerate_pieces file_size piece_size,
        p.start ≤ b ∧ b ≤ p.end_)
    ∧ ((enumerate_pieces file_size piece_size).map
        fun p => p.end_ - p.start + 1).sum = file_size := by
  have hlen := enumerate_pieces_length file_size piece_size
  refine ⟨hlen, ?_, ?_, ?_, ?_, ?_, ?_⟩
  · rw [hlen]; exact count_mul_ge hps
  · rw [hlen]
    rcases hn : (file_size + piece_size - 1) / piece_size with _ | n
    · simpa using hfs
    · have := @start_lt_of_lt_count file_size piece_size n hps (by omega)
      simpa using this
  · intro i h
    rw [enumerate_pieces_get file_size piece_size i h]
    exact ⟨rfl, rfl, rfl⟩
  · intro i j hi hj hij
    rw [enumerate_pieces_get file_size piece_size i hi,
      enumerate_pieces_get file_size piece_size j hj]
    show min (i * piece_size + piece_size) file_size - 1 < j * piece_size
    have h1 : i * piece_size + piece_size ≤ j * piece_size := by
      calc i * piece_size + piece_size = (i + 1) * piece_size := by ring
      _ ≤ j * piece_size := Nat.mul_le_mul_right _ hij
    omega
  · intro b hb
    refine ⟨{ idx := b / piece_size
              start := b / piece_size * piece_size
              end_ := min (b / piece_size * piece_size + piece_size)
                        file_size - 1 }, ?_, ?_, ?_⟩
    · have hmem : b / piece_size
          ∈ List.range ((file_size + piece_size - 1) / piece_size) := by
        rw [List.mem_range]
        have h1 : file_size + piece_size - 1 = (file_size - 1) + piece_size := by
          omega
        rw [h1, Nat.add_div_right _ hps]
        have h2 : b / piece_size ≤ (file_size - 1) / piece_size :=
          Nat.div_le_div_right (by omega)
        omega
      exact List.mem_map.mpr ⟨b / piece_size, hmem, rfl⟩
    · exact Nat.div_mul_le_self b piece_size
    · show b ≤ min (b / piece_size * piece_size + piece_size) file_size - 1
      have hdm := Nat.div_add_mod b piece_size
      rw [Nat.mul_comm] at hdm
      have hmod : b % piece_size < piece_size := Nat.mod_lt _ hps
      omega
  · have hmap : (enumerate_pieces file_size piece_size).map
        (fun p => p.end_ - p.start + 1)
        = (List.range ((file_size + piece_size - 1) / piece_size)).map
            fun i => min (i * piece_size + piece_size) file_size
              - i * piece_size := by
      rw [enumerate_pieces, List.map_map]
      refine List.map_congr_left ?_
      intro i hi
      rw [List.mem_range] at hi
      have hstart := start_lt_of_lt_count hps hi
      simp only [Function.comp]
      omega
    rw [hmap, sum_min_lengths]
    exact Nat.min_eq_right (count_mul_ge hps)

/-- Construction raises exactly when stripping and filtering leaves no
URL; the stored configuration is otherwise exact. -/
lemma mkDownloader_err_iff (urls : List String) (piece_size concurrency : Int) :
    isErr (mkDownloader urls piece_size concurrency) = true
      ↔ initUrls urls = [] := by
  unfold mkDownloader
  by_cases h : initUrls urls = [] <;> simp [h, isErr]

/-- Successful construction stores the normalised URL list and the
unvalidated numeric options. -/
lemma mkDownloader_ok (urls : List String) (piece_size concurrency : Int)
    (h : initUrls urls ≠ []) :
    mkDownloader urls piece_size concurrency
      = Except.ok
          { urls := initUrls urls
            piece_size := piece_size
            concurrency := concurrency } := by
  unfold mkDownloader
  simp [h]

/-- C7 counterexample: the claim says construction fails when
`piece_size` or `concurrency` is non-positive, but `__init__` performs
no such check: with one non-empty URL and `piece_size = 0`,
`concurrency = 0` (and likewise `-1`), construction succeeds. -/
theorem C7_counterexample :
    ¬ (isErr (mkDownloader ["http://x"] 0 0) = true
       ∨ isErr (mkDownloader ["http://x"] (-1) (-1)) = true) := by
  decide

/-- C7 (amended): construction fails with `ValueError` exactly when the
URL list contains no URL that is non-empty after stripping; `piece_size`
and `concurrency` are never validated, and construction with at least
one non-empty URL succeeds for every `piece_size` and `concurrency`. -/
theorem C7_mkDownloader_validation (urls : List String)
    (piece_size concurrency : Int) :
    (isErr (mkDownloader urls piece_size concurrency) = true
      ↔ initUrls urls = [])
    ∧ (initUrls urls ≠ [] →
        mkDownloader urls piece_size concurrency
          = Except.ok
              { urls := initUrls urls
                piece_size := piece_size
                concurrency := concurrency }) :=
  ⟨mkDownloader_err_iff urls piece_size concurrency,
    mkDownloader_ok urls piece_size concurrency⟩

/-- Witness for C7 at `urls = ["http://x"]`, `piece_size = -3`,
`concurrency = 0`. -/
theorem C7_mkDownloader_validation_witness :
    (isErr (mkDownloader ["http://x"] (-3) 0) = true
      ↔ initUrls ["http://x"] = [])
    ∧ (initUrls ["http://x"] ≠ [] →
        mkDownloader ["http://x"] (-3) 0
          = Except.ok
              { urls := initUrls ["http://x"], piece_size := -3
                concurrency := 0 }) :=
  C7_mkDownloader_validation ["http://x"] (-3) 0

/-- C9: the constructor strips every URL and discards those that are
empty after stripping; a list whose members all strip to empty is
rejected exactly like an empty list, and every retained URL is the
stripped form of a supplied URL and is non-empty. -/
theorem C9_initUrls_normalisation (urls : List String)
    (piece_size concurrency : Int) :
    (isErr (mkDownloader urls piece_size concurrency) = true
      ↔ ∀ u ∈ urls, pyStrip u = "")
    ∧ (∀ v ∈ initUrls urls, v ≠ "" ∧ ∃ u ∈ urls, v = pyStrip u)
    ∧ (∀ d, mkDownloader urls piece_size concurrency = Except.ok d →
        d.urls = initUrls urls) := by
  refine ⟨?_, ?_, ?_⟩
  · rw [mkDownloader_err_iff urls piece_size concurrency]
    unfold initUrls
    rw [List.filter_eq_nil_iff]
    constructor
    · intro h u hu
      have := h (pyStrip u) (List.mem_map_of_mem pyStrip hu)
      simpa using this
    · intro h v hv
      rcases List.mem_map.mp hv with ⟨u, hu, rfl⟩
      simpa using h u hu
  · intro v hv
    unfold initUrls at hv
    rcases List.mem_filter.mp hv with ⟨hmem, hne⟩
    rcases List.mem_map.mp hmem with ⟨u, hu, rfl⟩
    exact ⟨by simpa using hne, u, hu, rfl⟩
  · intro d hd
    unfold mkDownloader at hd
    by_cases h : initUrls urls = [] <;> simp [h] at hd
    rw [← hd]

/-- Witness for C9 at `urls = ["  http://a  ", " ", ""]`. -/
theorem C9_initUrls_normalisation_witness :
    (isErr (mkDownloader ["  http://a  ", " ", ""] 4 2) = true
      ↔ ∀ u ∈ ["  http://a  ", " ", ""], pyStrip u = "")
    ∧ (∀ v ∈ initUrls ["  http://a  ", " ", ""],
        v ≠ "" ∧ ∃ u ∈ ["  http://a  ", " ", ""], v = pyStrip u)
    ∧ (∀ d, mkDownloader ["  http://a  ", " ", ""] 4 2 = Except.ok d →
        d.urls = initUrls ["  http://a  ", " ", ""]) :=
  C9_initUrls_normalisation ["  http://a  ", " ", ""] 4 2

/-- Witness for C1 at `file_size = 10`, `piece_size = 4`. -/
theorem C1_enumerate_pieces_tiling_witness :
    (enumerate_pieces 10 4).length = (10 + 4 - 1) / 4
    ∧ 10 ≤ (enumerate_pieces 10 4).length * 4
    ∧ ((enumerate_pieces 10 4).length - 1) * 4 < 10
    ∧ (∀ i, ∀ h : i < (enumerate_pieces 10 4).length,
        (enumerate_pieces 10 4)[i].idx = i
        ∧ (enumerate_pieces 10 4)[i].start = i * 4
        ∧ (enumerate_pieces 10 4)[i].end_ = min (i * 4 + 4) 10 - 1)
    ∧ (∀ i j, ∀ hi : i < (enumerate_pieces 10 4).length,
        ∀ hj : j < (enumerate_pieces 10 4).length, i < j →
        (enumerate_pieces 10 4)[i].end_ < (enumerate_pieces 10 4)[j].start)
    ∧ (∀ b, b < 10 → ∃ p ∈ enumerate_pieces 10 4, p.start ≤ b ∧ b ≤ p.end_)
    ∧ ((enumerate_pieces 10 4).map fun p => p.end_ - p.start + 1).sum = 10 :=
  C1_enumerate_pieces_tiling 10 4 (by decide) (by decide)

/-- C6: `_probe_server` reports `file_size = 0` whenever `Content-Length`
is missing or non-numeric; `range_supported = true` exactly when the
`Accept-Ranges` header lowercases to `"bytes"` or the `bytes=0-0` probe
returns status 206; and a network exception on the initial request(s)
yields `(0, false)`. -/
theorem C6_probe_server_spec (env : ProbeEnv) :
    (probeResp env = none → probeServer env = (0, false))
    ∧ (∀ r, probeResp env = some r →
        (r.contentLength = none
            ∨ ∃ s, r.contentLength = some s ∧ isDigits s = false) →
        (probeServer env).1 = 0)
    ∧ (∀ r, probeResp env = some r →
        ((probeServer env).2 = true
          ↔ ((∃ a, r.acceptRanges = some a ∧ pyLower a = "bytes")
              ∨ env.rangeProbeStatus = some 206))) := by
  refine ⟨?_, ?_, ?_⟩
  · intro h
    unfold probeServer
    rw [h]
  · intro r hr hcl
    unfold probeServer
    rw [hr]
    rcases hcl with h | ⟨s, hs, hds⟩
    · simp [h]
    · simp [hs, hds]
  · intro r hr
    have har : acceptRangesBytes r = true
        ↔ ∃ a, r.acceptRanges = some a ∧ pyLower a = "bytes" := by
      unfold acceptRangesBytes
      cases h : r.acceptRanges with
      | none => simp
      | some a =>
        simp only [decide_eq_true_eq, Option.some.injEq]
        constructor
        · intro ha
          exact ⟨a, rfl, by simpa using ha.2⟩
        · rintro ⟨a', rfl, hlow⟩
          refine ⟨?_, by simpa using hlow⟩
          intro hempty
          rw [hempty] at hlow
          have h0 : pyLower "" = "" := rfl
          rw [h0] at hlow
          exact absurd hlow (by decide)
    unfold probeServer
    rw [hr]
    by_cases hab : acceptRangesBytes r = true
    · simp only [hab, if_true]
      simp [har.mp hab]
    · simp only [hab]
      rw [← har]
      cases hps : env.rangeProbeStatus with
      | none => simp [hab, hps]
      | some s => simp [hab, hps, eq_comm]

/-- Witness for C6: a server answering HEAD with status 200,
`Content-Length: 12x` (non-numeric) and `Accept-Ranges: none`, whose
`bytes=0-0` probe returns 206. -/
theorem C6_probe_server_spec_witness :
    (probeResp ⟨some ⟨200, some "12x", some "none"⟩, none, some 206⟩ = none →
      probeServer ⟨some ⟨200, some "12x", some "none"⟩, none, some 206⟩
        = (0, false))
    ∧ (∀ r, probeResp ⟨some ⟨200, some "12x", some "none"⟩, none, some 206⟩
          = some r →
        (r.contentLength = none
            ∨ ∃ s, r.contentLength = some s ∧ isDigits s = false) →
        (probeServer ⟨some ⟨200, some "12x", some "none"⟩, none, some 206⟩).1
          = 0)
    ∧ (∀ r, probeResp ⟨some ⟨200, some "12x", some "none"⟩, none, some 206⟩
          = some r →
        ((probeServer ⟨some ⟨200, some "12x", some "none"⟩, none, some 206⟩).2
            = true
          ↔ ((∃ a, r.acceptRanges = some a ∧ pyLower a = "bytes")
              ∨ (⟨some ⟨200, some "12x", some "none"⟩, none,
                    some 206⟩ : ProbeEnv).rangeProbeStatus = some 206))) :=
  C6_probe_server_spec ⟨some ⟨200, some "12x", some "none"⟩, none, some 206⟩

/-- The piece produced by one verifier iteration, as a single
conditional. -/
lemma verifyPiece_fst (hash : List Nat → String) (dest : List Nat)
    (p : Piece) :
    (verifyPiece hash dest p).1 =
      if p.status = "done" ∧ sha256Set p = true
          ∧ p.sha256 ≠ some (hash (readBytes dest p.start (p.end_ - p.start + 1)))
      then { p with status := "pending", sha256 := none } else p := by
  unfold verifyPiece
  by_cases hc : p.status = "done" ∧ sha256Set p = true
  · rw [if_pos hc]
    by_cases hd : p.sha256
        = some (hash (readBytes dest p.start (p.end_ - p.start + 1)))
    · rw [if_pos hd, if_neg (by tauto)]
    · rw [if_neg hd, if_pos ⟨hc.1, hc.2, hd⟩]
  · rw [if_neg hc, if_neg (by tauto)]

/-- Whether one verifier iteration persists its piece. -/
lemma verifyPiece_snd (hash : List Nat → String) (dest : List Nat)
    (p : Piece) :
    (verifyPiece hash dest p).2 =
      decide (p.status = "done" ∧ sha256Set p = true
        ∧ p.sha256 ≠ some (hash (readBytes dest p.start (p.end_ - p.start + 1)))) := by
  unfold verifyPiece
  by_cases hc : p.status = "done" ∧ sha256Set p = true
  · rw [if_pos hc]
    by_cases hd : p.sha256
        = some (hash (readBytes dest p.start (p.end_ - p.start + 1)))
    · rw [if_pos hd]
      simp [hd]
    · rw [if_neg hd]
      simp [hc.1, hc.2, hd]
  · rw [if_neg hc]
    rcases not_and_or.mp hc with h | h <;> simp [h]

/-- The verifier pass maps each piece to its demoted form exactly when
it was journalled done with a truthy hash that no longer matches the
destination bytes. -/
lemma verifyAll_spec (hash : List Nat → String) (dest : List Nat)
    (pieces : List Piece) :
    (verifyAll hash dest pieces).1 = (pieces.map fun p =>
      if p.status = "done" ∧ sha256Set p = true
          ∧ p.sha256 ≠ some (hash (readBytes dest p.start (p.end_ - p.start + 1)))
      then { p with status := "pending", sha256 := none } else p)
    ∧ (verifyAll hash dest pieces).2 = ((pieces.filter fun p =>
        p.status = "done" ∧ sha256Set p = true
          ∧ p.sha256 ≠ some (hash (readBytes dest p.start
              (p.end_ - p.start + 1)))).map fun p =>
        { p with status := "pending", sha256 := none }) := by
  induction pieces with
  | nil => exact ⟨rfl, rfl⟩
  | cons p rest ih =>
    obtain ⟨ih1, ih2⟩ := ih
    have hv : verifyAll hash dest (p :: rest)
        = ((verifyPiece hash dest p).1 :: (verifyAll hash dest rest).1,
            (if (verifyPiece hash dest p).2 then [(verifyPiece hash dest p).1]
             else []) ++ (verifyAll hash dest rest).2) := rfl
    rw [hv]
    constructor
    · rw [List.map_cons]
      exact congrArg₂ _ (verifyPiece_fst hash dest p) ih1
    · rw [List.filter_cons]
      by_cases hc : p.status = "done" ∧ sha256Set p = true
          ∧ p.sha256 ≠ some (hash (readBytes dest p.start (p.end_ - p.start + 1)))
      · have hsnd : (verifyPiece hash dest p).2 = true := by
          rw [verifyPiece_snd]
          exact decide_eq_true hc
        have hfst : (verifyPiece hash dest p).1
            = { p with status := "pending", sha256 := none } := by
          rw [verifyPiece_fst]
          exact if_pos hc
        have hdm : decide (p.status = "done" ∧ sha256Set p = true
            ∧ p.sha256 ≠ some (hash (readBytes dest p.start
                (p.end_ - p.start + 1)))) = true := decide_eq_true hc
        show (if (verifyPiece hash dest p).2 = true
              then [(verifyPiece hash dest p).1] else [])
            ++ (verifyAll hash dest rest).2 = _
        rw [hsnd, hfst, ih2, hdm]
        simp
      · have hsnd : (verifyPiece hash dest p).2 = false := by
          rw [verifyPiece_snd]
          exact decide_eq_false hc
        have hdm : decide (p.status = "done" ∧ sha256Set p = true
            ∧ p.sha256 ≠ some (hash (readBytes dest p.start
                (p.end_ - p.start + 1)))) = false := decide_eq_false hc
        show (if (verifyPiece hash dest p).2 = true
              then [(verifyPiece hash dest p).1] else [])
            ++ (verifyAll hash dest rest).2 = _
        rw [hsnd, ih2, hdm]
        simp

/-- C2: the resume verifier touches exactly the pieces with
`status = "done"` and truthy `sha256`; a piece whose re-read digest
differs is demoted to `pending` with its hash cleared and is persisted,
and every other piece is left unchanged and not persisted. -/
theorem C2_verifier_spec (hash : List Nat → String) (dest : List Nat)
    (pieces : List Piece) :
    (verifyAll hash dest pieces).1 = (pieces.map fun p =>
      if p.status = "done" ∧ sha256Set p = true
          ∧ p.sha256 ≠ some (hash (readBytes dest p.start (p.end_ - p.start + 1)))
      then { p with status := "pending", sha256 := none } else p)
    ∧ (verifyAll hash dest pieces).2 = ((pieces.filter fun p =>
        p.status = "done" ∧ sha256Set p = true
          ∧ p.sha256 ≠ some (hash (readBytes dest p.start
              (p.end_ - p.start + 1)))).map fun p =>
        { p with status := "pending", sha256 := none }) :=
  verifyAll_spec hash dest pieces

/-- Witness for C2: a three-piece table over destination bytes
`[1,2,3,4]` with a constant hash `"h"`: a done piece whose stored hash
matches is kept, a done piece with hash `"x"` is demoted and persisted,
and a pending piece is untouched. -/
theorem C2_verifier_spec_witness :
    (verifyAll (fun _ => "h") [1, 2, 3, 4]
        [⟨0, 0, 1, some "h", "done", none⟩,
          ⟨1, 2, 3, some "x", "done", none⟩,
          ⟨2, 2, 3, none, "pending", none⟩]).1
      = ([⟨0, 0, 1, some "h", "done", none⟩,
          ⟨1, 2, 3, some "x", "done", none⟩,
          ⟨2, 2, 3, none, "pending", none⟩].map fun p =>
        if p.status = "done" ∧ sha256Set p = true
            ∧ p.sha256 ≠ some ((fun _ => "h")
                (readBytes [1, 2, 3, 4] p.start (p.end_ - p.start + 1)))
        then { p with status := "pending", sha256 := none } else p)
    ∧ (verifyAll (fun _ => "h") [1, 2, 3, 4]
        [⟨0, 0, 1, some "h", "done", none⟩,
          ⟨1, 2, 3, some "x", "done", none⟩,
          ⟨2, 2, 3, none, "pending", none⟩]).2
      = (([⟨0, 0, 1, some "h", "done", none⟩,
          ⟨1, 2, 3, some "x", "done", none⟩,
          ⟨2, 2, 3, none, "pending", none⟩].filter fun p =>
        p.status = "done" ∧ sha256Set p = true
          ∧ p.sha256 ≠ some ((fun _ => "h")
              (readBytes [1, 2, 3, 4] p.start (p.end_ - p.start + 1)))).map
          fun p => { p with status := "pending", sha256 := none }) :=
  C2_verifier_spec (fun _ => "h") [1, 2, 3, 4]
    [⟨0, 0, 1, some "h", "done", none⟩,
      ⟨1, 2, 3, some "x", "done", none⟩,
      ⟨2, 2, 3, none, "pending", none⟩]

/-- Whether one mirror's ranged GET terminates the worker's failover
loop: no exception and status 206 or 200 (the source checks nothing
else). -/
def accepts (fetch : String → FetchOutcome) (u : String) : Bool :=
  match fetch u with
  | FetchOutcome.exc => false
  | FetchOutcome.resp s _ => s = 206 ∨ s = 200

/-- The failover loop exhausts the mirror list exactly when no mirror
is accepted. -/
lemma firstAccepted_none_iff (fetch : String → FetchOutcome)
    (urls : List String) :
    firstAccepted fetch urls = none
      ↔ ∀ u ∈ urls, accepts fetch u = false := by
  induction urls with
  | nil => simp [firstAccepted]
  | cons u rest ih =>
    unfold firstAccepted
    cases hf : fetch u with
    | exc =>
      simp only [List.mem_cons]
      rw [ih]
      constructor
      · intro h v hv
        rcases hv with rfl | hv
        · simp [accepts, hf]
        · exact h v hv
      · intro h v hv
        exact h v (Or.inr hv)
    | resp s body =>
      show (if s = 206 ∨ s = 200 then some (u, body)
            else firstAccepted fetch rest) = none
          ↔ ∀ v ∈ u :: rest, accepts fetch v = false
      by_cases hs : s = 206 ∨ s = 200
      · rw [if_pos hs]
        constructor
        · intro h
          exact absurd h (by simp)
        · intro h
          have := h u (by simp)
          rw [accepts, hf] at this
          simp [hs] at this
      · rw [if_neg hs, ih]
        simp only [List.mem_cons]
        constructor
        · intro h v hv
          rcases hv with rfl | hv
          · rw [accepts, hf]
            simpa using hs
          · exact h v hv
        · intro h v hv
          exact h v (Or.inr hv)

/-- A successful failover returns the first accepted mirror: the URLs
before it were all rejected, and the returned body is that mirror's
response body with status 206 or 200. -/
lemma firstAccepted_some (fetch : String → FetchOutcome)
    (urls : List String) (u : String) (body : List Nat)
    (h : firstAccepted fetch urls = some (u, body)) :
    ∃ pre post, urls = pre ++ u :: post
      ∧ (∀ v ∈ pre, accepts fetch v = false)
      ∧ ∃ s, fetch u = FetchOutcome.resp s body ∧ (s = 206 ∨ s = 200) := by
  induction urls with
  | nil => exact absurd h (by simp [firstAccepted])
  | cons u0 rest ih =>
    rw [firstAccepted] at h
    cases hf : fetch u0 with
    | exc =>
      rw [hf] at h
      obtain ⟨pre, post, heq, hpre, hresp⟩ := ih h
      refine ⟨u0 :: pre, post, by rw [heq]; rfl, ?_, hresp⟩
      intro v hv
      rcases List.mem_cons.mp hv with rfl | hv
      · simp [accepts, hf]
      · exact hpre v hv
    | resp s b =>
      rw [hf] at h
      have h' : (if s = 206 ∨ s = 200 then some (u0, b)
            else firstAccepted fetch rest) = some (u, body) := h
      by_cases hs : s = 206 ∨ s = 200
      · rw [if_pos hs] at h'
        obtain ⟨rfl, rfl⟩ : u0 = u ∧ b = body := by
          constructor <;> [exact congrArg Prod.fst (Option.some.inj h');
            exact congrArg Prod.snd (Option.some.inj h')]
        exact ⟨[], rest, rfl, by simp, s, hf, hs⟩
      · rw [if_neg hs] at h'
        obtain ⟨pre, post, heq, hpre, hresp⟩ := ih h'
        refine ⟨u0 :: pre, post, by rw [heq]; rfl, ?_, hresp⟩
        intro v hv
        rcases List.mem_cons.mp hv with rfl | hv
        · rw [accepts, hf]
          simpa using hs
        · exact hpre v hv

/-- C4 counterexample: for the piece `[0, 3]` (expected byte count 4)
and mirror list `["a", "b"]` where `"a"` answers 200 with a 2-byte body
and `"b"` answers 206 with a correct 4-byte body, the worker accepts
mirror `"a"` and stops: contrary to the claim, a 200/206 response
terminates the attempts even when its body does not have
`end − start + 1` bytes. -/
theorem C4_counterexample :
    ¬ (∀ u body,
        firstAccepted
          (fun s => if s = "a" then FetchOutcome.resp 200 [1, 2]
                    else FetchOutcome.resp 206 [1, 2, 3, 4])
          ["a", "b"] = some (u, body) →
        body.length = 3 - 0 + 1) := by
  intro h
  have hfa : firstAccepted
      (fun s => if s = "a" then FetchOutcome.resp 200 [1, 2]
                else FetchOutcome.resp 206 [1, 2, 3, 4])
      ["a", "b"] = some ("a", [1, 2]) := by
    rw [firstAccepted]
    simp
  have := h "a" [1, 2] hfa
  exact absurd this (by decide)

/-- C4 (amended): the worker attempts mirrors in list order and the
first response with status 200 or 206 terminates the attempts for the
piece regardless of its byte count; when every mirror fails (network
exception or other status) the worker raises
`DownloadError("Failed to download piece {idx}")`. -/
theorem C4_worker_mirror_failover (hash : List Nat → String)
    (fetch : String → FetchOutcome) (urls : List String)
    (dest : List Nat) (p : Piece) :
    (workerRun hash fetch urls dest p
        = Except.error ("Failed to download piece " ++ toString p.idx)
      ↔ ∀ u ∈ urls, accepts fetch u = false)
    ∧ (∀ u body, firstAccepted fetch urls = some (u, body) →
        workerRun hash fetch urls dest p
          = Except.ok (writeAt dest p.start body, workerComplete hash p u body))
    ∧ (∀ u body, firstAccepted fetch urls = some (u, body) →
        ∃ pre post, urls = pre ++ u :: post
          ∧ (∀ v ∈ pre, accepts fetch v = false)
          ∧ ∃ s, fetch u = FetchOutcome.resp s body ∧ (s = 206 ∨ s = 200)) := by
  refine ⟨?_, ?_, ?_⟩
  · rw [← firstAccepted_none_iff]
    unfold workerRun
    cases hfa : firstAccepted fetch urls with
    | none => simp
    | some ub => simp
  · intro u body hfa
    unfold workerRun
    rw [hfa]
  · intro u body hfa
    exact firstAccepted_some fetch urls u body hfa

/-- Witness for C4 at one exception mirror followed by one accepted
mirror. -/
theorem C4_worker_mirror_failover_witness :
    ((workerRun (fun _ => "h")
        (fun s => if s = "bad" then FetchOutcome.exc
                  else FetchOutcome.resp 206 [9, 9])
        ["bad", "good"] [0, 0, 0, 0] ⟨0, 1, 2, none, "pending", none⟩
        = Except.error ("Failed to download piece "
            ++ toString (⟨0, 1, 2, none, "pending", none⟩ : Piece).idx))
      ↔ ∀ u ∈ ["bad", "good"],
          accepts (fun s => if s = "bad" then FetchOutcome.exc
                            else FetchOutcome.resp 206 [9, 9]) u = false)
    ∧ (∀ u body, firstAccepted
          (fun s => if s = "bad" then FetchOutcome.exc
                    else FetchOutcome.resp 206 [9, 9]) ["bad", "good"]
          = some (u, body) →
        workerRun (fun _ => "h")
          (fun s => if s = "bad" then FetchOutcome.exc
                    else FetchOutcome.resp 206 [9, 9])
          ["bad", "good"] [0, 0, 0, 0] ⟨0, 1, 2, none, "pending", none⟩
          = Except.ok (writeAt [0, 0, 0, 0] 1 body,
              workerComplete (fun _ => "h")
                ⟨0, 1, 2, none, "pending", none⟩ u body))
    ∧ (∀ u body, firstAccepted
          (fun s => if s = "bad" then FetchOutcome.exc
                    else FetchOutcome.resp 206 [9, 9]) ["bad", "good"]
          = some (u, body) →
        ∃ pre post, ["bad", "good"] = pre ++ u :: post
          ∧ (∀ v ∈ pre, accepts
              (fun s => if s = "bad" then FetchOutcome.exc
                        else FetchOutcome.resp 206 [9, 9]) v = false)
          ∧ ∃ s, (fun s => if s = "bad" then FetchOutcome.exc
                           else FetchOutcome.resp 206 [9, 9]) u
                = FetchOutcome.resp s body ∧ (s = 206 ∨ s = 200)) :=
  C4_worker_mirror_failover (fun _ => "h")
    (fun s => if s = "bad" then FetchOutcome.exc
              else FetchOutcome.resp 206 [9, 9])
    ["bad", "good"] [0, 0, 0, 0] ⟨0, 1, 2, none, "pending", none⟩

/-- C5: evaluating `_sequential_download` at a 3-byte existing
destination, `file_size = 6`, and a server that ignores the
`Range: bytes=3-` header and answers 200 with the full 6-byte resource
`[65,…,70]`: the code opens the destination for append and produces a
9-byte file (prior prefix followed by the full stream) instead of
truncating to 0 and keeping the 6-byte resource, confirming the bug the
specification flags. -/
theorem C5_sequential_appends_on_200 :
    sequentialDownload (fun _ => "H") "u"
        (fun _ => { status := 200, body := [65, 66, 67, 68, 69, 70] })
        6 (some [65, 66, 67]) []
      = Except.ok ([65, 66, 67, 65, 66, 67, 68, 69, 70], [],
          NetEvent.seqReq "u" (some 3))
    ∧ ([65, 66, 67, 65, 66, 67, 68, 69, 70] : List Nat).length = 9 := by
  constructor
  · rw [sequentialDownload]
    simp
  · rfl

/-- C8: every piece row any operation persists satisfies
"`sha256` truthy iff `status = done`": the planner writes pending rows
with no hash, the worker and the sequential completion write done rows
whose hash is a digest (non-empty, as every SHA-256 hex digest is — the
hypothesis `hh`), and the verifier persists only demoted rows with the
hash cleared. -/
theorem C8_sha256_iff_done (hash : List Nat → String)
    (hh : ∀ data : List Nat, hash data ≠ "") :
    (∀ file_size piece_size : Nat,
        ∀ p ∈ enumerate_pieces file_size piece_size,
        (p.status = "done" ↔ sha256Set p = true))
    ∧ (∀ (p : Piece) (url : String) (data : List Nat),
        ((workerComplete hash p url data).status = "done"
          ↔ sha256Set (workerComplete hash p url data) = true))
    ∧ (∀ (dest : List Nat) (pieces : List Piece),
        ∀ p ∈ (verifyAll hash dest pieces).2,
        (p.status = "done" ↔ sha256Set p = true))
    ∧ (∀ (url : String) (fetch : Option Nat → SeqResp)
        (file_size : Nat) (dest0 : Option (List Nat)) (pieces : List Piece)
        (res : List Nat × List Piece × NetEvent),
        sequentialDownload hash url fetch file_size dest0 pieces
            = Except.ok res →
        ∀ p ∈ res.2.1, (p.status = "done" ↔ sha256Set p = true)) := by
  refine ⟨?_, ?_, ?_, ?_⟩
  · intro file_size piece_size p hp
    rcases List.mem_map.mp hp with ⟨i, _, rfl⟩
    constructor
    · intro h
      exact absurd (show "pending" = "done" from h) (by decide)
    · intro h
      exact absurd (show (false : Bool) = true from h) (by decide)
  · intro p url data
    constructor
    · intro
      simp [sha256Set, workerComplete, hh data]
    · intro
      rfl
  · intro dest pieces p hp
    rw [(verifyAll_spec hash dest pieces).2] at hp
    rcases List.mem_map.mp hp with ⟨q, _, rfl⟩
    constructor
    · intro h
      exact absurd (show "pending" = "done" from h) (by decide)
    · intro h
      exact absurd (show (false : Bool) = true from h) (by decide)
  · intro url fetch file_size dest0 pieces res hok p hp
    simp only [sequentialDownload] at hok
    split at hok <;> split at hok <;>
      first
        | (obtain rfl := Except.ok.inj hok
           rcases List.mem_map.mp hp with ⟨q, hq, rfl⟩
           exact ⟨fun _ => by simp [sha256Set, hh], fun _ => rfl⟩)
        | exact absurd hok (by simp)

/-- Witness for C8 with the constant digest function `fun _ => "h"`. -/
theorem C8_sha256_iff_done_witness :
    (∀ file_size piece_size : Nat,
        ∀ p ∈ enumerate_pieces file_size piece_size,
        (p.status = "done" ↔ sha256Set p = true))
    ∧ (∀ (p : Piece) (url : String) (data : List Nat),
        ((workerComplete (fun _ => "h") p url data).status = "done"
          ↔ sha256Set (workerComplete (fun _ => "h") p url data) = true))
    ∧ (∀ (dest : List Nat) (pieces : List Piece),
        ∀ p ∈ (verifyAll (fun _ => "h") dest pieces).2,
        (p.status = "done" ↔ sha256Set p = true))
    ∧ (∀ (url : String) (fetch : Option Nat → SeqResp)
        (file_size : Nat) (dest0 : Option (List Nat)) (pieces : List Piece)
        (res : List Nat × List Piece × NetEvent),
        sequentialDownload (fun _ => "h") url fetch file_size dest0 pieces
            = Except.ok res →
        ∀ p ∈ res.2.1, (p.status = "done" ↔ sha256Set p = true)) :=
  C8_sha256_iff_done (fun _ => "h") (fun _ => by simp)

/-- Unfolding `metaGet` over a cons cell. -/
lemma metaGet_cons (kv : String × String) (m : List (String × String))
    (k : String) :
    metaGet (kv :: m) k = if kv.1 = k then some kv.2 else metaGet m k := by
  unfold metaGet
  by_cases h : kv.1 = k
  · rw [List.find?_cons_of_pos _ (by simpa using h), if_pos h]
    simp
  · rw [List.find?_cons_of_neg _ (by simpa using h), if_neg h]

/-- Setting one metadata key does not change `_get_meta` on another. -/
lemma metaGet_metaSet_ne (m : List (String × String)) (k k' v : String)
    (h : ¬ k' = k) :
    metaGet (metaSet m k v) k' = metaGet m k' := by
  have hkk : ¬ k = k' := fun hh => h hh.symm
  induction m with
  | nil =>
    show metaGet [(k, v)] k' = metaGet [] k'
    rw [metaGet_cons]
    rw [if_neg (by simpa using hkk)]
  | cons kv rest ih =>
    show metaGet (if kv.1 = k then (k, v) :: rest else kv :: metaSet rest k v) k'
        = metaGet (kv :: rest) k'
    by_cases hk : kv.1 = k
    · rw [if_pos hk, metaGet_cons, metaGet_cons]
      rw [if_neg (by simpa using hkk), if_neg (by rw [hk]; exact hkk)]
    · rw [if_neg hk, metaGet_cons, metaGet_cons, ih]

/-- A verifier pass over a table whose rows are all done and whose
hashes all match the destination bytes changes nothing and persists
nothing. -/
lemma verifyAll_id (hash : List Nat → String) (dest : List Nat)
    (pieces : List Piece)
    (h : ∀ p ∈ pieces, p.status = "done" ∧ sha256Set p = true
        ∧ p.sha256 = some (hash (readBytes dest p.start (p.end_ - p.start + 1)))) :
    verifyAll hash dest pieces = (pieces, []) := by
  induction pieces with
  | nil => rfl
  | cons p rest ih =>
    have hp := h p (List.mem_cons_self p rest)
    have hrest := ih fun q hq => h q (List.mem_cons_of_mem p hq)
    have hvp : verifyPiece hash dest p = (p, false) := by
      unfold verifyPiece
      rw [if_pos ⟨hp.1, hp.2.1⟩, if_pos hp.2.2]
    show ((verifyPiece hash dest p).1 :: (verifyAll hash dest rest).1,
        (if (verifyPiece hash dest p).2 then [(verifyPiece hash dest p).1]
         else []) ++ (verifyAll hash dest rest).2) = (p :: rest, [])
    rw [hvp, hrest]
    simp

/-- Every request the probe phase issues is probe traffic (HEAD, the
header-reading GET, or the `bytes=0-0` GET) — never a piece fetch or a
sequential fetch. -/
lemma probeEvents_isProbe (env : ProbeEnv) (url : String) :
    ∀ e ∈ probeEvents env url, e.isProbe = true := by
  intro e he
  unfold probeEvents at he
  rcases List.mem_append.mp he with hm | hm
  · rcases List.mem_append.mp hm with hm | hm
    · rcases List.mem_singleton.mp hm with rfl
      rfl
    · cases hh : env.headResult with
      | none =>
        rw [hh] at hm
        exact absurd hm (by simp)
      | some r0 =>
        rw [hh] at hm
        have hm' : e ∈ (if r0.status ≥ 400
            then [NetEvent.getHeadersReq url] else []) := hm
        by_cases hs : r0.status ≥ 400
        · rw [if_pos hs] at hm'
          rcases List.mem_singleton.mp hm' with rfl
          rfl
        · rw [if_neg hs] at hm'
          exact absurd hm' (by simp)
  · cases hr : probeResp env with
    | none =>
      rw [hr] at hm
      exact absurd hm (by simp)
    | some resp =>
      rw [hr] at hm
      have hm' : e ∈ (if acceptRangesBytes resp = true
          then [] else [NetEvent.rangeProbeReq url]) := hm
      by_cases hb : acceptRangesBytes resp = true
      · rw [if_pos hb] at hm'
        exact absurd hm' (by simp)
      · rw [if_neg hb] at hm'
        rcases List.mem_singleton.mp hm' with rfl
        rfl

/-- C3 counterexample: a fully-done manifest whose destination bytes
match every stored hash, run against a healthy server: `download()`
short-circuits before any piece work, yet its request list is non-empty
— the probe (an HTTP HEAD) is network I/O performed on every
invocation, contradicting "performs no network I/O". -/
theorem C3_counterexample :
    (∀ p ∈ ([⟨0, 0, 1, some "H", "done", none⟩] : List Piece),
        p.status = "done"
        ∧ p.sha256 = some ((fun _ => "H")
            (readBytes [7, 7] p.start (p.end_ - p.start + 1))))
    ∧ (downloadStep (fun _ => "H")
        ⟨some ⟨200, some "2", some "bytes"⟩, none, none⟩ ["u"] 4
        ⟨[("initialised", "1")], [⟨0, 0, 1, some "H", "done", none⟩],
          some [7, 7]⟩).1 = Outcome.finished
    ∧ (downloadStep (fun _ => "H")
        ⟨some ⟨200, some "2", some "bytes"⟩, none, none⟩ ["u"] 4
        ⟨[("initialised", "1")], [⟨0, 0, 1, some "H", "done", none⟩],
          some [7, 7]⟩).2.2 = [NetEvent.headReq "u"] := by
  refine ⟨by decide, ?_, ?_⟩ <;> rfl

/-- C3 (amended): running `download()` against an initialised manifest
whose pieces are all done with hashes matching the destination (whose
size agrees with the probed file size) ends in the early return: the
destination and the piece table are unchanged, no piece or sequential
fetch is dispatched, and the only network I/O is the probe itself
(every issued request is probe traffic). -/
theorem C3_resume_short_circuit (hash : List Nat → String)
    (penv : ProbeEnv) (urls : List String) (piece_size file_size : Nat)
    (rs : Bool) (st : DLState) (d : List Nat)
    (hprobe : probeServer penv = (file_size, rs))
    (hfs : 0 < file_size)
    (hdest : st.dest = some d)
    (hlen : d.length = file_size)
    (hinit : truthy (metaGet st.meta "initialised") = true)
    (hdone : ∀ p ∈ st.pieces, p.status = "done" ∧ sha256Set p = true
        ∧ p.sha256 = some (hash (readBytes d p.start (p.end_ - p.start + 1)))) :
    downloadStep hash penv urls piece_size st
      = (Outcome.finished,
          { meta := metaSet (metaSet st.meta "file_size" (toString file_size))
              "range_supported" (if rs then "1" else "0")
            pieces := st.pieces
            dest := st.dest },
          probeEvents penv (urls.headD ""))
    ∧ ∀ e ∈ probeEvents penv (urls.headD ""), e.isProbe = true := by
  refine ⟨?_, probeEvents_isProbe penv (urls.headD "")⟩
  have hfs' : ¬ file_size = 0 := by omega
  have h1 : metaGet (metaSet (metaSet st.meta "file_size"
      (toString file_size)) "range_supported"
      (if rs then "1" else "0")) "initialised"
      = metaGet st.meta "initialised" := by
    rw [metaGet_metaSet_ne _ _ _ _ (by decide),
      metaGet_metaSet_ne _ _ _ _ (by decide)]
  have hid := verifyAll_id hash d st.pieces hdone
  have hpend : (st.pieces.filter fun p => p.status ≠ "done") = [] :=
    List.filter_eq_nil_iff.mpr fun p hp => by simp [(hdone p hp).1]
  have hall : ∀ a ∈ st.pieces, a.status = "done" :=
    fun p hp => (hdone p hp).1
  simp only [downloadStep, hprobe, hdest, hlen, h1, hinit, hid, hpend,
    hfs', if_false, ite_self]
  simp [hdest, hid, hall]
  intro x hx hcon
  exact absurd (hall x hx) hcon

/-- Witness for C3 (amended) at a two-byte file, one done piece, and a
range-capable server. -/
theorem C3_resume_short_circuit_witness :
    (downloadStep (fun _ => "H")
        ⟨some ⟨200, some "2", some "bytes"⟩, none, none⟩ ["u"] 4
        ⟨[("initialised", "1")], [⟨0, 0, 1, some "H", "done", none⟩],
          some [7, 7]⟩
      = (Outcome.finished,
          { meta := metaSet (metaSet [("initialised", "1")] "file_size"
              (toString 2)) "range_supported"
              (if (true : Bool) then "1" else "0")
            pieces := [⟨0, 0, 1, some "H", "done", none⟩]
            dest := some [7, 7] },
          probeEvents ⟨some ⟨200, some "2", some "bytes"⟩, none, none⟩
            (["u"].headD "")))
    ∧ ∀ e ∈ probeEvents ⟨some ⟨200, some "2", some "bytes"⟩, none, none⟩
        (["u"].headD ""), e.isProbe = true :=
  C3_resume_short_circuit (fun _ => "H")
    ⟨some ⟨200, some "2", some "bytes"⟩, none, none⟩ ["u"] 4 2 true
    ⟨[("initialised", "1")], [⟨0, 0, 1, some "H", "done", none⟩],
      some [7, 7]⟩ [7, 7]
    (by decide) (by decide) rfl rfl (by decide) (by decide)

/-- C10: when the probe reports `file_size = 0`, `download()` raises
`DownloadError` immediately: the manifest metadata, the piece table and
the destination are all returned unchanged, and the only requests
issued are the probe's. -/
theorem C10_probe_zero_no_mutation (hash : List Nat → String)
    (penv : ProbeEnv) (urls : List String) (piece_size : Nat)
    (st : DLState)
    (h : (probeServer penv).1 = 0) :
    downloadStep hash penv urls piece_size st
      = (Outcome.fatal "Unable to determine remote file size", st,
          probeEvents penv (urls.headD "")) := by
  simp only [downloadStep, h, if_pos]

/-- Witness for C10: the initial HEAD raises, so the probe yields
`(0, false)` and `download()` fails with the state untouched. -/
theorem C10_probe_zero_no_mutation_witness :
    downloadStep (fun _ => "") ⟨none, none, none⟩ ["u"] 4
        ⟨[("k", "v")], [⟨0, 0, 1, none, "pending", none⟩], some [9]⟩
      = (Outcome.fatal "Unable to determine remote file size",
          ⟨[("k", "v")], [⟨0, 0, 1, none, "pending", none⟩], some [9]⟩,
          probeEvents ⟨none, none, none⟩ (["u"].headD "")) :=
  C10_probe_zero_no_mutation (fun _ => "") ⟨none, none, none⟩ ["u"] 4
    ⟨[("k", "v")], [⟨0, 0, 1, none, "pending", none⟩], some [9]⟩ rfl

end ZDM
